import Mathlib

/-!
Shallow embedding of the MochiMochi binary online-learning classifiers
(PA, AdaGrad-RDA, ADAM, NHERD) and of the binary OML factory, together
with theorems settling the specification claims.

Doubles are embedded as exact rationals (PA, NHERD, factory) or reals
(AdaGrad-RDA, ADAM, which use std::sqrt).  The functions::enumerate
helper (its header is not part of the excerpt) is applied in the source
to the dense pointer range `feature.data() .. feature.data()+size()`
with an initial index of 0; following the spec's "indexed iteration"
description of the vector abstraction, it is modelled as visiting every
(index, value) pair of the dense range in order, which the pointwise /
zipWith definitions below realize directly.
-/

/-- Dot product of two coefficient lists, as `Eigen::VectorXd::dot`
on vectors of matching dimension. -/
def dotL (w x : List ℚ) : ℚ := (List.zipWith (· * ·) w x).sum

/-- State of a `PA` instance.  `kDim`, `kC`, `kSelect` are the member
fields (mutable in practice because `load` writes through `const_cast`).
`tauSelect` records which of the three formulas the constructor baked
into the `_compute_tau` closure: the closure captures `this`, so it
reads the current `kC` at call time, but the `switch` on the selector
ran once, at construction.  `tauSet` records whether the `switch`
assigned `_compute_tau` at all (the `default:` case constructs a
`std::runtime_error` without throwing it and leaves the `std::function`
empty). -/
structure PAState where
  kDim : ℕ
  kC : ℚ
  kSelect : ℤ
  tauSelect : ℤ
  tauSet : Bool
  weight : List ℚ
deriving DecidableEq

/-- The three `_compute_tau` closures of `PA::PA`, dispatched on the
selector baked in at construction.  Case 0: `loss / |value|^2`, with 0
on `value == 0`; case 1: `min(kC, loss / |value|^2)`, with `kC` on
`value == 0`; case 2: `loss / (|value|^2 + 1.0 / 2 * kC)` (note the
source's `1.0 / 2 * kC` is `kC / 2`, not `1 / (2 kC)`).  The final
branch stands for the empty `std::function` left by the `default:`
case; it is never exercised by a constructed instance with `tauSet`. -/
def computeTau (sel : ℤ) (C : ℚ) (value loss : ℚ) : ℚ :=
  if sel = 0 then (if value = 0 then 0 else loss / |value| ^ 2)
  else if sel = 1 then (if value = 0 then C else min C (loss / |value| ^ 2))
  else if sel = 2 then loss / (|value| ^ 2 + 1 / 2 * C)
  else 0

/-- `PA::PA(dim, C, select)`: zero weight vector; the `static_assert`s
compare `std::numeric_limits<...>::max()` with 0 and hold for every
argument, and the `default:` switch case does not throw, so
construction completes for every input. -/
def PA.construct (dim : ℕ) (C : ℚ) (select : ℤ) : PAState :=
  { kDim := dim
    kC := C
    kSelect := select
    tauSelect := select
    tauSet := select == 0 || select == 1 || select == 2
    weight := List.replicate dim 0 }

/-- `PA::suffer_loss`: hinge loss `max(0, 1 - y * w.dot(x))`. -/
def PA.sufferLoss (s : PAState) (x : List ℚ) (y : ℤ) : ℚ :=
  max 0 (1 - (y : ℚ) * dotL s.weight x)

/-- `PA::update`: for each index/value of the feature range,
`_weight[index] += _compute_tau(value, loss) * label * value`; always
returns true. -/
def PA.update (s : PAState) (x : List ℚ) (y : ℤ) : PAState × Bool :=
  let loss := PA.sufferLoss s x y
  ({ s with
      weight := List.zipWith
        (fun wi v => wi + computeTau s.tauSelect s.kC v loss * (y : ℚ) * v)
        s.weight x },
   true)

/-- `PA::predict`: `compute_margin(x) > 0.0 ? 1 : -1`. -/
def PA.predict (s : PAState) (x : List ℚ) : ℤ :=
  if 0 < dotL s.weight x then 1 else -1

/-- The boost text archive written by `PA::save`: weight vector,
dimension, C, selector. -/
structure PAArchive where
  weight : List ℚ
  dim : ℕ
  C : ℚ
  select : ℤ
deriving DecidableEq

/-- `PA::save` (serialization member): stores weight, kDim, kC, kSelect. -/
def PA.save (s : PAState) : PAArchive :=
  ⟨s.weight, s.kDim, s.kC, s.kSelect⟩

/-- `PA::load` (serialization member): overwrites `_weight` and, through
`const_cast`, `kDim`, `kC` and `kSelect` with the archived values.  The
`_compute_tau` closure is not touched, so the formula choice baked at
construction (`tauSelect`, `tauSet`) survives. -/
def PA.load (s : PAState) (a : PAArchive) : PAState :=
  { kDim := a.dim
    kC := a.C
    kSelect := a.select
    tauSelect := s.tauSelect
    tauSet := s.tauSet
    weight := a.weight }

/-- The squared Euclidean norm of a feature vector as the spec's
`‖x‖²`; used only to state claims that mention the full norm. -/
def specNormSq (x : List ℚ) : ℚ := (x.map (fun v => v * v)).sum

theorem getD_zipWith_of_lt (f : ℚ → ℚ → ℚ) (l₁ l₂ : List ℚ) (i : ℕ)
    (h₁ : i < l₁.length) (h₂ : i < l₂.length) :
    (List.zipWith f l₁ l₂).getD i 0 = f (l₁.getD i 0) (l₂.getD i 0) := by
  induction l₁ generalizing l₂ i with
  | nil => simp at h₁
  | cons a t ih =>
    cases l₂ with
    | nil => simp at h₂
    | cons b t₂ =>
      cases i with
      | zero => simp
      | succ n =>
        simp only [List.zipWith_cons_cons, List.getD_cons_succ]
        exact ih t₂ n (by simpa using h₁) (by simpa using h₂)

/-- C2: the claim that PA-0 applies one single step size
`τ = loss / ‖x‖²` to all coordinates is false on the code: `PA::update`
calls `_compute_tau(value, loss)` separately on each coordinate value.
At `x = [1, 2]`, `y = +1`, zero initial weight, the claimed weight
would be `[τ·1·1, τ·1·2]` with `τ = loss / ‖x‖² = 1/5`, but the code
produces `[1, 1/2]`. -/
theorem pa0_single_tau_counterexample :
    (PA.update (PA.construct 2 1 0) [1, 2] 1).1.weight
      ≠ [0 + PA.sufferLoss (PA.construct 2 1 0) [1, 2] 1 / specNormSq [1, 2] * 1 * 1,
         0 + PA.sufferLoss (PA.construct 2 1 0) [1, 2] 1 / specNormSq [1, 2] * 1 * 2] := by
  norm_num [PA.update, PA.construct, PA.sufferLoss, dotL, computeTau, specNormSq,
    List.replicate_succ]

/-- C2 (amended): for a PA instance whose constructor baked in selector
0 (PA-0), one update adds `τᵢ·y·x[i]` to coordinate `i` of the weight
vector, where `τᵢ = hinge-loss / x[i]²` is computed per coordinate,
with `τᵢ = 0` when `x[i] = 0` (guarding divide-by-zero). -/
theorem pa0_update_per_coordinate (s : PAState) (hsel : s.tauSelect = 0)
    (x : List ℚ) (y : ℤ) (hlen : x.length = s.weight.length)
    (i : ℕ) (hi : i < s.weight.length) :
    (PA.update s x y).1.weight.getD i 0
      = s.weight.getD i 0
        + (if x.getD i 0 = 0 then 0 else PA.sufferLoss s x y / |x.getD i 0| ^ 2)
          * (y : ℚ) * x.getD i 0 := by
  have hx : i < x.length := hlen ▸ hi
  simp only [PA.update]
  rw [getD_zipWith_of_lt _ _ _ _ hi hx]
  simp [computeTau, hsel]

/-- Witness for the amended C2 theorem: PA-0, `x = [1, 2]`, `y = +1`,
zero initial weight of dimension 2, coordinate 0. -/
theorem pa0_update_per_coordinate_witness :
    (PA.update (PA.construct 2 1 0) [1, 2] 1).1.weight.getD 0 0
      = (PA.construct 2 1 0).weight.getD 0 0
        + (if ([1, 2] : List ℚ).getD 0 0 = 0 then 0
           else PA.sufferLoss (PA.construct 2 1 0) [1, 2] 1 / |([1, 2] : List ℚ).getD 0 0| ^ 2)
          * ((1 : ℤ) : ℚ) * ([1, 2] : List ℚ).getD 0 0 :=
  pa0_update_per_coordinate (PA.construct 2 1 0) rfl [1, 2] 1 (by simp [PA.construct]) 0
    (by simp [PA.construct])

/-- C3: the claim that PA-II uses step size
`τ = loss / (‖x‖² + 1/(2C))` is false on the code: the source computes,
per coordinate, `loss / (|value|² + 1.0 / 2 * kC)`, i.e. denominator
`x[i]² + C/2`.  With `C = 1/2`, `x = [1]`, `y = +1`, zero weight, the
code yields weight `[4/5]` (τ = 0.8), while the claimed closed form
gives `τ = 1 / (‖x‖² + 1/(2C)) = 1/2`. -/
theorem pa2_denominator_counterexample :
    (PA.update (PA.construct 1 (1/2) 2) [1] 1).1.weight = [4/5]
    ∧ (4 : ℚ)/5 ≠ PA.sufferLoss (PA.construct 1 (1/2) 2) [1] 1
        / (specNormSq [1] + 1 / (2 * (1/2))) := by
  constructor
  · norm_num [PA.update, PA.construct, PA.sufferLoss, dotL, computeTau, List.replicate_succ]
  · norm_num [PA.sufferLoss, PA.construct, dotL, specNormSq, List.replicate_succ]

/-- C3 (amended): for a PA instance whose constructor baked in selector
2 (PA-II), the step size applied to coordinate `i` equals
`hinge-loss / (x[i]² + C/2)`; in particular with `C = 0.5`,
`x = [1, 0]`, `y = +1` and zero initial weight, the τ applied at
coordinate 0 is `1/(1 + 0.25) = 0.8` and the resulting weight is
`[0.8, 0] = τ·y·x`. -/
theorem pa2_update_per_coordinate :
    (∀ (s : PAState), s.tauSelect = 2 →
      ∀ (x : List ℚ) (y : ℤ), x.length = s.weight.length →
      ∀ (i : ℕ), i < s.weight.length →
        (PA.update s x y).1.weight.getD i 0
          = s.weight.getD i 0
            + PA.sufferLoss s x y / (|x.getD i 0| ^ 2 + 1 / 2 * s.kC)
              * (y : ℚ) * x.getD i 0)
    ∧ (PA.update (PA.construct 2 (1/2) 2) [1, 0] 1).1.weight = [4/5, 0] := by
  constructor
  · intro s hsel x y hlen i hi
    have hx : i < x.length := hlen ▸ hi
    simp only [PA.update]
    rw [getD_zipWith_of_lt _ _ _ _ hi hx]
    simp [computeTau, hsel]
  · norm_num [PA.update, PA.construct, PA.sufferLoss, dotL, computeTau, List.replicate_succ]

/-- Witness for the amended C3 theorem: PA-II with `C = 1`, `x = [2]`,
`y = +1`, zero initial weight of dimension 1, coordinate 0. -/
theorem pa2_update_per_coordinate_witness :
    (PA.update (PA.construct 1 1 2) [2] 1).1.weight.getD 0 0
      = (PA.construct 1 1 2).weight.getD 0 0
        + PA.sufferLoss (PA.construct 1 1 2) [2] 1
            / (|([2] : List ℚ).getD 0 0| ^ 2 + 1 / 2 * (PA.construct 1 1 2).kC)
          * ((1 : ℤ) : ℚ) * ([2] : List ℚ).getD 0 0 :=
  pa2_update_per_coordinate.1 (PA.construct 1 1 2) rfl [2] 1 (by simp [PA.construct]) 0
    (by simp [PA.construct])

/-- C1: save/load does not restore the archived step-size formula.
Save a PA constructed with selector 0 and `C = 7`; load the archive
into a PA constructed with selector 2 and `C = 9`.  After the load the
`kSelect` field holds the archived 0 and `kC` holds the archived 7,
yet one update on `x = [1]`, `y = +1` moves the weight to `[2/9]` —
the PA-II formula `1/(1² + 7/2)` with the archived C — while the saved
model's update moves it to `[1]` (PA-0 formula).  The `_compute_tau`
closure chosen at construction is never rebuilt by `load`, so the
loaded model is not functionally equivalent to the saved one. -/
theorem pa_load_keeps_constructor_formula :
    (PA.load (PA.construct 1 9 2) (PA.save (PA.construct 1 7 0))).kSelect = 0
    ∧ (PA.load (PA.construct 1 9 2) (PA.save (PA.construct 1 7 0))).kC = 7
    ∧ (PA.update (PA.load (PA.construct 1 9 2) (PA.save (PA.construct 1 7 0))) [1] 1).1.weight
        = [2/9]
    ∧ (PA.update (PA.construct 1 7 0) [1] 1).1.weight = [1]
    ∧ ([2/9] : List ℚ) ≠ [1] := by
  refine ⟨rfl, rfl, ?_, ?_, by norm_num⟩
  · norm_num [PA.update, PA.load, PA.save, PA.construct, PA.sufferLoss, dotL, computeTau,
      List.replicate_succ]
  · norm_num [PA.update, PA.construct, PA.sufferLoss, dotL, computeTau, List.replicate_succ]

/-- C5: construction does not fail fast.  `PA(1, -1.0, 5)` — dimension
1, negative C, unrecognized selector — completes normally: the
`static_assert`s compare `std::numeric_limits<...>::max()` with 0 and
always hold, no runtime check rejects `C ≤ 0`, and the `default:`
switch case constructs a `std::runtime_error` without throwing it,
silently leaving the `_compute_tau` function empty. -/
theorem pa_construct_completes_on_invalid_input :
    (PA.construct 1 (-1) 5).tauSet = false
    ∧ (PA.construct 1 (-1) 5).kC = -1
    ∧ (PA.construct 1 (-1) 5).kSelect = 5
    ∧ (PA.construct 1 (-1) 5).weight = [0] := by
  refine ⟨by norm_num [PA.construct], rfl, rfl, by simp [PA.construct, List.replicate_succ]⟩

/-- Dot product of two dense real vectors of dimension `n`, as
`Eigen::VectorXd::dot`. -/
def dotR {n : ℕ} (w x : Fin n → ℝ) : ℝ := ∑ i, w i * x i

/-- State of an `ADAGRAD_RDA` instance: hyperparameters `kEta`,
`kLambda` and the mutable `_timestep`, `_w`, `_h`, `_g`. -/
structure RDAState (n : ℕ) where
  kEta : ℝ
  kLambda : ℝ
  timestep : ℕ
  w : Fin n → ℝ
  h : Fin n → ℝ
  g : Fin n → ℝ

/-- `ADAGRAD_RDA::ADAGRAD_RDA(dim, eta, lambda)`: timestep 0, all
vectors zero. -/
def RDA.construct (n : ℕ) (eta lambda : ℝ) : RDAState n :=
  ⟨eta, lambda, 0, fun _ => 0, fun _ => 0, fun _ => 0⟩

/-- `ADAGRAD_RDA::suffer_loss`: `max(0, 1 - y * w.dot(x))`. -/
noncomputable def rdaLoss {n : ℕ} (s : RDAState n) (x : Fin n → ℝ) (y : ℤ) : ℝ :=
  max 0 (1 - (y : ℝ) * dotR s.w x)

/-- The weight written by the `ADAGRAD_RDA::update` loop body for a
coordinate whose accumulated gradient is `g` and accumulated squared
gradient is `h` at timestep `t`: with `sign = (g >= 0 ? 1 : -1)`,
`eta = kEta / sqrt(h)` and `u = |g| / t`, the new weight is 0 when
`u <= kLambda` and `-sign * eta * t * (u - kLambda)` otherwise. -/
noncomputable def rdaThreshW (eta lambda : ℝ) (t : ℕ) (g h : ℝ) : ℝ :=
  if |g| / (t : ℝ) ≤ lambda then 0
  else -(if 0 ≤ g then (1 : ℝ) else -1) * (eta / Real.sqrt h) * (t : ℝ)
        * (|g| / (t : ℝ) - lambda)

/-- `ADAGRAD_RDA::update`: return false leaving the state untouched
when the hinge loss is non-positive; otherwise increment `_timestep`
and, for every coordinate, accumulate the sub-gradient
`gradiant = -label * value` into `_g` and its square into `_h`, then
set `_w` by the soft-threshold rule `rdaThreshW`. -/
noncomputable def rdaUpdate {n : ℕ} (s : RDAState n) (x : Fin n → ℝ) (y : ℤ) :
    RDAState n × Bool :=
  if rdaLoss s x y ≤ 0 then (s, false)
  else
    let t' := s.timestep + 1
    let g' := fun i => s.g i + (-(y : ℝ) * x i)
    let h' := fun i => s.h i + (-(y : ℝ) * x i) * (-(y : ℝ) * x i)
    ({ s with
        timestep := t'
        g := g'
        h := h'
        w := fun i => rdaThreshW s.kEta s.kLambda t' (g' i) (h' i) },
     true)

/-- `ADAGRAD_RDA::predict`: `calculate_margin(x) > 0.0 ? 1 : -1`. -/
noncomputable def RDA.predict {n : ℕ} (s : RDAState n) (x : Fin n → ℝ) : ℤ :=
  if 0 < dotR s.w x then 1 else -1

/-- A freshly constructed `ADAGRAD_RDA` model after a sequence of
`update` calls, one per listed (feature, label) example. -/
noncomputable def rdaRun (n : ℕ) (eta lambda : ℝ)
    (l : List ((Fin n → ℝ) × ℤ)) : RDAState n :=
  l.foldl (fun s p => (rdaUpdate s p.1 p.2).1) (RDA.construct n eta lambda)

/-- State of an `ADAM` instance: `_timestep`, `_w`, `_m`, `_v`. -/
structure ADAMState (n : ℕ) where
  timestep : ℕ
  w : Fin n → ℝ
  m : Fin n → ℝ
  v : Fin n → ℝ

/-- `ADAM::ADAM(dim)`: timestep 0, all vectors zero. -/
def ADAM.construct (n : ℕ) : ADAMState n := ⟨0, fun _ => 0, fun _ => 0, fun _ => 0⟩

/-- `ADAM::update`: return false leaving the state untouched when the
hinge loss `max(0, 1 - y * w.dot(x))` is non-positive; otherwise, with
the constants of the source (`kAlpha = 0.001`, `kBeta1 = 0.9`,
`kBeta2 = 0.999`, `kEpsilon = 1e-8`, `kLambda = 0.99999999`) and
`beta1_t = kLambda^timestep * kBeta1` computed before the increment,
increment `_timestep` and update every coordinate from the gradient
`-label * x[i]` as in the source loop. -/
noncomputable def adamUpdate {n : ℕ} (s : ADAMState n) (x : Fin n → ℝ) (y : ℤ) :
    ADAMState n × Bool :=
  if max 0 (1 - (y : ℝ) * dotR s.w x) ≤ 0 then (s, false)
  else
    let grad := fun i => -(y : ℝ) * x i
    let beta1t := (0.99999999 : ℝ) ^ s.timestep * 0.9
    let t' := s.timestep + 1
    let m' := fun i => beta1t * s.m i + (1 - beta1t) * grad i
    let v' := fun i => (0.999 : ℝ) * s.v i + (1 - 0.999) * grad i * grad i
    ({ timestep := t'
       m := m'
       v := v'
       w := fun i =>
         s.w i - 0.001 * (m' i / (1 - (0.9 : ℝ) ^ t'))
           / (Real.sqrt (v' i / (1 - (0.999 : ℝ) ^ t')) + 0.00000001) },
     true)

/-- `ADAM::predict`: `calculate_margin(feature) > 0.0 ? 1 : -1`. -/
noncomputable def ADAM.predict {n : ℕ} (s : ADAMState n) (x : Fin n → ℝ) : ℤ :=
  if 0 < dotR s.w x then 1 else -1

/-- Dot product of two dense rational vectors of dimension `n`. -/
def dotQ {n : ℕ} (w x : Fin n → ℚ) : ℚ := ∑ i, w i * x i

/-- `NHERD` covariance closure for `kDiagonal = 0` (full covariance):
with `v = covariance * value`, return
`covariance - v*v*(kC*kC*confidence + 2*kC) / (1 + kC*confidence)^2`. -/
def nherdCov0 (C : ℚ) (cov conf v : ℚ) : ℚ :=
  cov - (cov * v) * (cov * v) * (C * C * conf + 2 * C) / (1 + C * conf) ^ 2

/-- `NHERD` covariance closure for `kDiagonal = 1` (exact covariance):
`covariance / (1 + kC * value * value * covariance)^2`. -/
def nherdCov1 (C : ℚ) (cov _conf v : ℚ) : ℚ :=
  cov / (1 + C * v * v * cov) ^ 2

/-- `NHERD` covariance closure for `kDiagonal = 2` (project covariance):
`1 / ((1 / covariance) + (2*kC + kC*kC*confidence) * value * value)`. -/
def nherdCov2 (C : ℚ) (cov conf v : ℚ) : ℚ :=
  1 / (1 / cov + (2 * C + C * C * conf) * v * v)

/-- `NHERD` covariance closure for `kDiagonal = 3` (drop covariance):
`covariance - (covariance*value)^2 * (kC*kC*confidence + 2*kC)
/ (1 + kC*confidence)^2`. -/
def nherdCov3 (C : ℚ) (cov conf v : ℚ) : ℚ :=
  cov - (cov * v) ^ 2 * (C * C * conf + 2 * C) / (1 + C * conf) ^ 2

/-- State of an `NHERD` instance: hyperparameters `kC`, `kDiagonal`,
the `_compute_covariance` closure chosen once at construction (`covf`,
with `covfSet` recording whether the `switch` assigned it at all — the
`default:` case constructs a `std::runtime_error` without throwing and
leaves the `std::function` empty), and the mutable `_covariances`,
`_means`. -/
structure NHERDState (n : ℕ) where
  kC : ℚ
  kDiagonal : ℤ
  covf : ℚ → ℚ → ℚ → ℚ
  covfSet : Bool
  covariances : Fin n → ℚ
  means : Fin n → ℚ

/-- `NHERD::NHERD(dim, C, diagonal)`: covariances all ones, means all
zeros, covariance closure selected by the `switch` on `kDiagonal`.
The placeholder in the default branch stands for the empty
`std::function`. -/
def NHERD.construct (n : ℕ) (C : ℚ) (diagonal : ℤ) : NHERDState n :=
  { kC := C
    kDiagonal := diagonal
    covf :=
      if diagonal = 0 then nherdCov0 C
      else if diagonal = 1 then nherdCov1 C
      else if diagonal = 2 then nherdCov2 C
      else if diagonal = 3 then nherdCov3 C
      else fun _ _ _ => 0
    covfSet := diagonal == 0 || diagonal == 1 || diagonal == 2 || diagonal == 3
    covariances := fun _ => 1
    means := fun _ => 0 }

/-- `NHERD::compute_confidence`: `Σ_i covariances[i] * x[i] * x[i]`. -/
def nherdConfidence {n : ℕ} (s : NHERDState n) (x : Fin n → ℚ) : ℚ :=
  ∑ i, s.covariances i * (x i * x i)

/-- `NHERD::update`: with `margin = means.dot(x)`, return false
leaving the state untouched when `margin * label >= 1`; otherwise
compute the confidence and `alpha = max(0, 1 - label*margin)
/ (confidence + 1/kC)`, then for every coordinate add
`alpha * label * covariances[i] * value` to the mean before replacing
`covariances[i]` with `_compute_covariance(covariances[i], confidence,
value)`. -/
def NHERD.update {n : ℕ} (s : NHERDState n) (x : Fin n → ℚ) (y : ℤ) :
    NHERDState n × Bool :=
  let margin := dotQ s.means x
  if margin * (y : ℚ) ≥ 1 then (s, false)
  else
    let confidence := nherdConfidence s x
    let alpha := max 0 (1 - (y : ℚ) * margin) / (confidence + 1 / s.kC)
    ({ s with
        means := fun i => s.means i + alpha * (y : ℚ) * s.covariances i * x i
        covariances := fun i => s.covf (s.covariances i) confidence (x i) },
     true)

/-- `NHERD::predict`: `compute_margin(x) > 0.0 ? 1 : -1`. -/
def NHERD.predict {n : ℕ} (s : NHERDState n) (x : Fin n → ℚ) : ℤ :=
  if 0 < dotQ s.means x then 1 else -1

/-- Truncation of a C++ `double` implicitly converted to `int`
(rounds toward zero), as happens to the `eta` argument that
`BinarySCWCreator` forwards into `PA`'s `int select` parameter. -/
def cppTruncToInt (q : ℚ) : ℤ := if 0 ≤ q then ⌊q⌋ else ⌈q⌉

/-- The concrete product held by a `BinaryOMLCreator` subclass.  The
`arow` and `scw` payloads are modelled from the spec: arow.hpp and
scw.hpp are not part of the excerpt, so those variants are represented
by their construction parameters only.  This loses nothing for the
claims, which only discriminate which concrete class a creator
instantiates. -/
inductive BinaryProduct where
  | pa (s : PAState)
  | adagradRDA (n : ℕ) (s : RDAState n)
  | adam (n : ℕ) (s : ADAMState n)
  | arow (dim : ℕ) (r : ℚ)
  | nherd (n : ℕ) (s : NHERDState n)
  | scw (dim : ℕ) (C : ℚ) (eta : ℚ)

/-- `name()` of the held product.  "PA", "ADAGRAD_RDA" and "NHERD" are
the strings returned by the corresponding `name()` overrides in the
source; the remaining identifiers are modelled from the spec's list of
algorithm identifiers (their headers are not part of the excerpt). -/
def productName : BinaryProduct → String
  | .pa _ => "PA"
  | .adagradRDA _ _ => "ADAGRAD_RDA"
  | .adam _ _ => "ADAM"
  | .arow _ _ => "AROW"
  | .nherd _ _ => "NHERD"
  | .scw _ _ _ => "SCW"

/-- `BinaryPACreator(dim, c, select)`: `new PA(dim, c, select)`. -/
def binaryPACreator (dim : ℕ) (c : ℚ) (select : ℤ) : BinaryProduct :=
  .pa (PA.construct dim c select)

/-- `BinaryADAGRADRDACreator(dim, eta, lambda)`:
`new ADAGRAD_RDA(dim, eta, lambda)`. -/
def binaryADAGRADRDACreator (dim : ℕ) (eta lambda : ℝ) : BinaryProduct :=
  .adagradRDA dim (RDA.construct dim eta lambda)

/-- `BinaryADAMCreator(dim)`: `new ADAM(dim)`. -/
def binaryADAMCreator (dim : ℕ) : BinaryProduct :=
  .adam dim (ADAM.construct dim)

/-- `BinaryAROWCreator(dim, r)`: `new AROW(dim, r)`. -/
def binaryAROWCreator (dim : ℕ) (r : ℚ) : BinaryProduct :=
  .arow dim r

/-- `BinaryNHERDCreator(dim, c, diagonal)`: `new NHERD(dim, c, diagonal)`. -/
def binaryNHERDCreator (dim : ℕ) (c : ℚ) (diagonal : ℤ) : BinaryProduct :=
  .nherd dim (NHERD.construct dim c diagonal)

/-- `BinarySCWCreator(dim, c, eta)`: the source constructs
`new PA(dim, c, eta)` — a PA, not an SCW — with the `double eta`
implicitly truncated into PA's `int select` parameter. -/
def binarySCWCreator (dim : ℕ) (c : ℚ) (eta : ℚ) : BinaryProduct :=
  .pa (PA.construct dim c (cppTruncToInt eta))

/-- C4: the SCW creator does not construct an SCW.  Evaluating
`BinarySCWCreator(2, 1.0, 0.9)` as written in the source yields the
product `new PA(2, 1.0, 0)` — the `double eta = 0.9` is implicitly
truncated into PA's `int select` parameter — and the product's
`name()` is "PA", not "SCW". -/
theorem scw_creator_constructs_pa :
    binarySCWCreator 2 1 (9/10) = BinaryProduct.pa (PA.construct 2 1 0)
    ∧ productName (binarySCWCreator 2 1 (9/10)) = "PA"
    ∧ "PA" ≠ "SCW" := by
  refine ⟨by norm_num [binarySCWCreator, cppTruncToInt], rfl, by decide⟩

/-- C6: for AdaGrad-RDA and ADAM, an update whose hinge loss is
non-positive returns false and leaves every component of the state —
`w`, `g`/`m`, `h`/`v` and the timestep — unchanged. -/
theorem skip_on_nonpositive_hinge :
    (∀ (n : ℕ) (s : RDAState n) (x : Fin n → ℝ) (y : ℤ),
       rdaLoss s x y ≤ 0 → rdaUpdate s x y = (s, false))
    ∧ (∀ (n : ℕ) (s : ADAMState n) (x : Fin n → ℝ) (y : ℤ),
       max 0 (1 - (y : ℝ) * dotR s.w x) ≤ 0 → adamUpdate s x y = (s, false)) := by
  constructor
  · intro n s x y hl
    simp [rdaUpdate, hl]
  · intro n s x y hl
    simp [adamUpdate, hl]

/-- Witness for C6: a one-dimensional AdaGrad-RDA state with weight 1
and a one-dimensional ADAM state with weight 1, both fed `x = [1]`,
`y = +1` (margin 1, hinge loss 0): the update is skipped. -/
theorem skip_on_nonpositive_hinge_witness :
    rdaUpdate (⟨1, 1, 0, fun _ => 1, fun _ => 0, fun _ => 0⟩ : RDAState 1) (fun _ => 1) 1
      = (⟨1, 1, 0, fun _ => 1, fun _ => 0, fun _ => 0⟩, false)
    ∧ adamUpdate (⟨0, fun _ => 1, fun _ => 0, fun _ => 0⟩ : ADAMState 1) (fun _ => 1) 1
      = (⟨0, fun _ => 1, fun _ => 0, fun _ => 0⟩, false) :=
  ⟨skip_on_nonpositive_hinge.1 1 _ _ 1 (by norm_num [rdaLoss, dotR]),
   skip_on_nonpositive_hinge.2 1 _ _ 1 (by norm_num [dotR])⟩

/-- C8: for every NHERD state, feature vector and label, `update`
returns false and changes nothing when `(means.dot(x)) * y >= 1`;
otherwise it computes `confidence = Σ_i covariances[i] * x[i]²` and
`alpha = max(0, 1 - y*margin) / (confidence + 1/C)`, adds
`alpha * y * covariances[i] * x[i]` to every mean coordinate, and
replaces every `covariances[i]` by the covariance closure chosen at
construction applied to `(covariances[i], confidence, x[i])`. -/
theorem nherd_update_spec {n : ℕ} (s : NHERDState n) (x : Fin n → ℚ) (y : ℤ) :
    (dotQ s.means x * (y : ℚ) ≥ 1 → NHERD.update s x y = (s, false))
    ∧ (¬ dotQ s.means x * (y : ℚ) ≥ 1 →
        (NHERD.update s x y).2 = true
        ∧ ∀ i,
          (NHERD.update s x y).1.means i
            = s.means i
              + max 0 (1 - (y : ℚ) * dotQ s.means x)
                  / (nherdConfidence s x + 1 / s.kC)
                * (y : ℚ) * s.covariances i * x i
          ∧ (NHERD.update s x y).1.covariances i
              = s.covf (s.covariances i) (nherdConfidence s x) (x i)) := by
  constructor
  · intro hskip
    simp [NHERD.update, hskip]
  · intro hskip
    refine ⟨by simp [NHERD.update, hskip], fun i => ⟨?_, ?_⟩⟩
    · simp [NHERD.update, hskip]
    · simp [NHERD.update, hskip]

/-- Witness for C8: a one-dimensional NHERD state with mean 2 on
`x = [1]`, `y = +1` has margin 2 ≥ 1 and is skipped, while a freshly
constructed NHERD (`C = 1`, full covariance) on the same example has
margin 0 < 1 and takes the update branch, whose coordinate-0 effect is
given by the per-coordinate closed forms. -/
theorem nherd_update_spec_witness :
    NHERD.update (⟨1, 0, nherdCov0 1, true, fun _ => 1, fun _ => 2⟩ : NHERDState 1)
        (fun _ => 1) 1
      = (⟨1, 0, nherdCov0 1, true, fun _ => 1, fun _ => 2⟩, false)
    ∧ (NHERD.update (NHERD.construct 1 1 0) (fun _ => 1) 1).2 = true
    ∧ (NHERD.update (NHERD.construct 1 1 0) (fun _ => 1) 1).1.means 0
        = (NHERD.construct 1 1 0).means 0
          + max 0 (1 - ((1 : ℤ) : ℚ) * dotQ (NHERD.construct 1 1 0).means (fun _ => 1))
              / (nherdConfidence (NHERD.construct 1 1 0) (fun _ => 1)
                  + 1 / (NHERD.construct 1 1 0).kC)
            * ((1 : ℤ) : ℚ) * (NHERD.construct 1 1 0).covariances 0 * 1
    ∧ (NHERD.update (NHERD.construct 1 1 0) (fun _ => 1) 1).1.covariances 0
        = (NHERD.construct 1 1 0).covf ((NHERD.construct 1 1 0).covariances 0)
            (nherdConfidence (NHERD.construct 1 1 0) (fun _ => 1)) 1 := by
  have hfresh : ¬ dotQ (NHERD.construct 1 1 0).means (fun _ => 1) * ((1 : ℤ) : ℚ) ≥ 1 := by
    norm_num [dotQ, NHERD.construct]
  refine ⟨(nherd_update_spec _ _ 1).1 (by norm_num [dotQ]),
    ((nherd_update_spec (NHERD.construct 1 1 0) (fun _ => 1) 1).2 hfresh).1,
    (((nherd_update_spec (NHERD.construct 1 1 0) (fun _ => 1) 1).2 hfresh).2 0).1,
    (((nherd_update_spec (NHERD.construct 1 1 0) (fun _ => 1) 1).2 hfresh).2 0).2⟩

theorem dotL_replicate_zero (d : ℕ) (x : List ℚ) : dotL (List.replicate d 0) x = 0 := by
  induction d generalizing x with
  | zero => simp [dotL]
  | succ k ih =>
    cases x with
    | nil => simp [dotL]
    | cons a t =>
      simp only [dotL, List.replicate_succ, List.zipWith_cons_cons, List.sum_cons, zero_mul]
      simpa [dotL] using ih t

/-- C9: for every variant (PA, AdaGrad-RDA, NHERD, ADAM), `predict`
returns +1 exactly when the margin — the dot product of the
weight/mean vector with the feature vector — is strictly positive, and
-1 otherwise; and on a freshly constructed model (zero weights/means)
`predict` of any feature vector returns -1, the margin being exactly
0. -/
theorem predict_margin_sign :
    (∀ (s : PAState) (x : List ℚ),
       (PA.predict s x = 1 ↔ 0 < dotL s.weight x)
       ∧ (PA.predict s x = -1 ↔ ¬ 0 < dotL s.weight x))
    ∧ (∀ (d : ℕ) (C : ℚ) (sel : ℤ) (x : List ℚ),
       PA.predict (PA.construct d C sel) x = -1)
    ∧ (∀ (n : ℕ) (s : RDAState n) (x : Fin n → ℝ),
       (RDA.predict s x = 1 ↔ 0 < dotR s.w x)
       ∧ (RDA.predict s x = -1 ↔ ¬ 0 < dotR s.w x))
    ∧ (∀ (n : ℕ) (eta lambda : ℝ) (x : Fin n → ℝ),
       RDA.predict (RDA.construct n eta lambda) x = -1)
    ∧ (∀ (n : ℕ) (s : NHERDState n) (x : Fin n → ℚ),
       (NHERD.predict s x = 1 ↔ 0 < dotQ s.means x)
       ∧ (NHERD.predict s x = -1 ↔ ¬ 0 < dotQ s.means x))
    ∧ (∀ (n : ℕ) (C : ℚ) (diag : ℤ) (x : Fin n → ℚ),
       NHERD.predict (NHERD.construct n C diag) x = -1)
    ∧ (∀ (n : ℕ) (s : ADAMState n) (x : Fin n → ℝ),
       (ADAM.predict s x = 1 ↔ 0 < dotR s.w x)
       ∧ (ADAM.predict s x = -1 ↔ ¬ 0 < dotR s.w x))
    ∧ (∀ (n : ℕ) (x : Fin n → ℝ), ADAM.predict (ADAM.construct n) x = -1) := by
  refine ⟨fun s x => ?_, fun d C sel x => ?_, fun n s x => ?_, fun n eta lambda x => ?_,
    fun n s x => ?_, fun n C diag x => ?_, fun n s x => ?_, fun n x => ?_⟩
  · by_cases hm : 0 < dotL s.weight x <;> simp [PA.predict, hm]
  · simp [PA.predict, PA.construct, dotL_replicate_zero]
  · by_cases hm : 0 < dotR s.w x <;> simp [RDA.predict, hm]
  · simp [RDA.predict, RDA.construct, dotR]
  · by_cases hm : 0 < dotQ s.means x <;> simp [NHERD.predict, hm]
  · simp [NHERD.predict, NHERD.construct, dotQ]
  · by_cases hm : 0 < dotR s.w x <;> simp [ADAM.predict, hm]
  · simp [ADAM.predict, ADAM.construct, dotR]

/-- The running invariant of `ADAGRAD_RDA`: every weight coordinate
equals the soft-threshold formula of the current accumulators and
timestep, the accumulated squared gradients are non-negative, and a
coordinate with non-zero accumulated gradient has strictly positive
accumulated squared gradient. -/
def rdaInvariant {n : ℕ} (s : RDAState n) : Prop :=
  (∀ i, s.w i = rdaThreshW s.kEta s.kLambda s.timestep (s.g i) (s.h i))
  ∧ (∀ i, 0 ≤ s.h i)
  ∧ (∀ i, s.g i ≠ 0 → 0 < s.h i)

theorem rdaThreshW_timestep_zero (eta lambda g h : ℝ) :
    rdaThreshW eta lambda 0 g h = 0 := by
  unfold rdaThreshW
  split
  · rfl
  · push_cast
    ring

theorem rdaInvariant_construct (n : ℕ) (eta lambda : ℝ) :
    rdaInvariant (RDA.construct n eta lambda) := by
  refine ⟨fun i => ?_, fun i => le_refl 0, fun i hg => absurd rfl hg⟩
  simp [RDA.construct, rdaThreshW_timestep_zero]

theorem rdaUpdate_kEta {n : ℕ} (s : RDAState n) (x : Fin n → ℝ) (y : ℤ) :
    (rdaUpdate s x y).1.kEta = s.kEta := by
  unfold rdaUpdate
  split <;> rfl

theorem rdaUpdate_kLambda {n : ℕ} (s : RDAState n) (x : Fin n → ℝ) (y : ℤ) :
    (rdaUpdate s x y).1.kLambda = s.kLambda := by
  unfold rdaUpdate
  split <;> rfl

theorem rdaInvariant_update {n : ℕ} (s : RDAState n) (x : Fin n → ℝ) (y : ℤ)
    (hs : rdaInvariant s) : rdaInvariant (rdaUpdate s x y).1 := by
  obtain ⟨hw, hh, hgh⟩ := hs
  unfold rdaUpdate
  split
  · exact ⟨hw, hh, hgh⟩
  · refine ⟨fun i => rfl, fun i => ?_, fun i hg => ?_⟩
    · exact add_nonneg (hh i) (mul_self_nonneg _)
    · by_cases hz : (-(y : ℝ) * x i) = 0
      · have hgz : s.g i ≠ 0 := by
          simpa [hz] using hg
        have := hgh i hgz
        simp only [hz, mul_zero, add_zero]
        linarith
      · have hpos : 0 < (-(y : ℝ) * x i) * (-(y : ℝ) * x i) := mul_self_pos.mpr hz
        have := hh i
        show 0 < s.h i + (-(y : ℝ) * x i) * (-(y : ℝ) * x i)
        linarith

theorem rdaFold_preserved {n : ℕ} (eta lambda : ℝ) (l : List ((Fin n → ℝ) × ℤ)) :
    ∀ (s : RDAState n), s.kEta = eta → s.kLambda = lambda → rdaInvariant s →
      (l.foldl (fun s p => (rdaUpdate s p.1 p.2).1) s).kEta = eta
      ∧ (l.foldl (fun s p => (rdaUpdate s p.1 p.2).1) s).kLambda = lambda
      ∧ rdaInvariant (l.foldl (fun s p => (rdaUpdate s p.1 p.2).1) s) := by
  induction l with
  | nil => exact fun s h1 h2 h3 => ⟨h1, h2, h3⟩
  | cons p rest ih =>
    intro s h1 h2 h3
    simp only [List.foldl_cons]
    exact ih _ ((rdaUpdate_kEta s p.1 p.2).trans h1)
      ((rdaUpdate_kLambda s p.1 p.2).trans h2)
      (rdaInvariant_update s p.1 p.2 h3)

theorem rdaRun_preserved (n : ℕ) (eta lambda : ℝ) (l : List ((Fin n → ℝ) × ℤ)) :
    (rdaRun n eta lambda l).kEta = eta ∧ (rdaRun n eta lambda l).kLambda = lambda
    ∧ rdaInvariant (rdaRun n eta lambda l) :=
  rdaFold_preserved eta lambda l (RDA.construct n eta lambda) rfl rfl
    (rdaInvariant_construct n eta lambda)

/-- C7: on every effective AdaGrad-RDA update (hinge loss positive) and
for every coordinate, after accumulating the gradient into `g[i]` and
its square into `h[i]` and incrementing the timestep, the new weight is
the soft-threshold value: 0 when `u = |g[i]| / timestep ≤ lambda`, and
`-sign(g[i]) * (eta / sqrt(h[i])) * timestep * (u - lambda)` otherwise;
consequently, starting from a fresh model, after any sequence of
updates a coordinate whose averaged gradient magnitude is at most
`lambda` has weight exactly 0 — in particular one whose magnitude never
exceeded `lambda` has weight 0 after every update, no matter how many
updates occurred. -/
theorem rda_soft_threshold :
    (∀ (n : ℕ) (s : RDAState n) (x : Fin n → ℝ) (y : ℤ), 0 < rdaLoss s x y →
       ∀ i,
         (rdaUpdate s x y).1.timestep = s.timestep + 1
         ∧ (rdaUpdate s x y).1.g i = s.g i + -(y : ℝ) * x i
         ∧ (rdaUpdate s x y).1.h i = s.h i + (-(y : ℝ) * x i) * (-(y : ℝ) * x i)
         ∧ (rdaUpdate s x y).1.w i =
             (if |(rdaUpdate s x y).1.g i| / ((rdaUpdate s x y).1.timestep : ℝ) ≤ s.kLambda
              then 0
              else -(if 0 ≤ (rdaUpdate s x y).1.g i then (1 : ℝ) else -1)
                    * (s.kEta / Real.sqrt ((rdaUpdate s x y).1.h i))
                    * ((rdaUpdate s x y).1.timestep : ℝ)
                    * (|(rdaUpdate s x y).1.g i| / ((rdaUpdate s x y).1.timestep : ℝ)
                        - s.kLambda)))
    ∧ (∀ (n : ℕ) (eta lambda : ℝ) (l : List ((Fin n → ℝ) × ℤ)) (i : Fin n),
        |(rdaRun n eta lambda l).g i| / ((rdaRun n eta lambda l).timestep : ℝ) ≤ lambda →
        (rdaRun n eta lambda l).w i = 0) := by
  constructor
  · intro n s x y hl i
    have hne : ¬ rdaLoss s x y ≤ 0 := not_le.mpr hl
    refine ⟨?_, ?_, ?_, ?_⟩ <;>
      simp only [rdaUpdate, if_neg hne, rdaThreshW]
  · intro n eta lambda l i hu
    obtain ⟨hE, hL, hinv, -⟩ := rdaRun_preserved n eta lambda l
    rw [hinv i, hE, hL]
    unfold rdaThreshW
    rw [if_pos hu]

/-- Witness for C7: a fresh one-dimensional model with `eta = lambda
= 1` on `x = [1]`, `y = +1` has hinge loss 1 > 0 and its update
increments the timestep; and with `lambda = 2`, after the single-update
run on the same example the averaged gradient magnitude is `1 ≤ 2`, so
the weight coordinate is exactly 0. -/
theorem rda_soft_threshold_witness :
    (0 : ℝ) < rdaLoss (RDA.construct 1 1 1) (fun _ => 1) 1
    ∧ (rdaUpdate (RDA.construct 1 1 1) (fun _ => 1) 1).1.timestep
        = (RDA.construct 1 1 1).timestep + 1
    ∧ (|(rdaRun 1 1 2 [((fun _ => 1), 1)]).g 0|
        / ((rdaRun 1 1 2 [((fun _ => 1), 1)]).timestep : ℝ) ≤ 2)
    ∧ (rdaRun 1 1 2 [((fun _ => 1), 1)]).w 0 = 0 := by
  have hloss : (0 : ℝ) < rdaLoss (RDA.construct 1 1 1) (fun _ => 1) 1 := by
    norm_num [rdaLoss, RDA.construct, dotR]
  have hu : |(rdaRun 1 1 2 [((fun _ => 1), 1)]).g 0|
      / ((rdaRun 1 1 2 [((fun _ => 1), 1)]).timestep : ℝ) ≤ 2 := by
    norm_num [rdaRun, rdaUpdate, rdaLoss, RDA.construct, dotR]
  exact ⟨hloss, (rda_soft_threshold.1 1 _ _ 1 hloss 0).1, hu,
    rda_soft_threshold.2 1 1 2 [((fun _ => 1), 1)] 0 hu⟩

/-- C10: for positive `eta` and `lambda`, after every sequence of
updates from the zero-initialized state every coordinate satisfies
`w[i] * g[i] ≤ 0`: the weight is exactly 0 whenever
`|g[i]| / timestep ≤ lambda`, and otherwise its sign is strictly
opposite to the accumulated gradient `g[i]`. -/
theorem rda_weight_gradient_opposition (n : ℕ) (eta lambda : ℝ)
    (heta : 0 < eta) (hlambda : 0 < lambda) (l : List ((Fin n → ℝ) × ℤ)) (i : Fin n) :
    (rdaRun n eta lambda l).w i * (rdaRun n eta lambda l).g i ≤ 0
    ∧ (|(rdaRun n eta lambda l).g i| / ((rdaRun n eta lambda l).timestep : ℝ) ≤ lambda →
        (rdaRun n eta lambda l).w i = 0)
    ∧ (lambda < |(rdaRun n eta lambda l).g i| / ((rdaRun n eta lambda l).timestep : ℝ) →
        (rdaRun n eta lambda l).w i * (rdaRun n eta lambda l).g i < 0) := by
  obtain ⟨hE, hL, hinv, hh, hgh⟩ := rdaRun_preserved n eta lambda l
  set S := rdaRun n eta lambda l with hS
  have hw : S.w i = rdaThreshW eta lambda S.timestep (S.g i) (S.h i) := by
    rw [hinv i, hE, hL]
  by_cases hu : |S.g i| / (S.timestep : ℝ) ≤ lambda
  · have hw0 : S.w i = 0 := by
      rw [hw]
      unfold rdaThreshW
      rw [if_pos hu]
    refine ⟨by rw [hw0]; simp, fun _ => hw0, fun hlt => absurd hu (not_le.mpr hlt)⟩
  · have hu' : lambda < |S.g i| / (S.timestep : ℝ) := not_le.mp hu
    have hupos : 0 < |S.g i| / (S.timestep : ℝ) := lt_trans hlambda hu'
    have hg0 : S.g i ≠ 0 := by
      intro hz
      rw [hz] at hupos
      simp at hupos
    have habs : 0 < |S.g i| := abs_pos.mpr hg0
    have ht : 0 < (S.timestep : ℝ) := by
      rcases Nat.eq_zero_or_pos S.timestep with h0 | hpos
      · rw [h0] at hupos
        simp at hupos
      · exact_mod_cast hpos
    have hhp : 0 < S.h i := hgh i hg0
    have hsq : 0 < Real.sqrt (S.h i) := Real.sqrt_pos.mpr hhp
    have hfrac : 0 < eta / Real.sqrt (S.h i) := div_pos heta hsq
    have hdiff : 0 < |S.g i| / (S.timestep : ℝ) - lambda := sub_pos.mpr hu'
    have hF : 0 < eta / Real.sqrt (S.h i) * (S.timestep : ℝ)
        * (|S.g i| / (S.timestep : ℝ) - lambda) :=
      mul_pos (mul_pos hfrac ht) hdiff
    have hwg : S.w i * S.g i < 0 := by
      rw [hw]
      unfold rdaThreshW
      rw [if_neg hu]
      by_cases hgs : 0 ≤ S.g i
      · have hgpos : 0 < S.g i := lt_of_le_of_ne hgs (Ne.symm hg0)
        rw [if_pos hgs]
        nlinarith
      · have hgneg : S.g i < 0 := not_le.mp hgs
        rw [if_neg hgs]
        nlinarith
    exact ⟨le_of_lt hwg, fun hle => absurd hle hu, fun _ => hwg⟩

/-- Witness for C10: `eta = lambda = 1` are positive, and after the
one-example run on `x = [1]`, `y = +1` the product `w[0] * g[0]` is
non-positive. -/
theorem rda_weight_gradient_opposition_witness :
    (0 : ℝ) < 1
    ∧ (rdaRun 1 1 1 [((fun _ => 1), 1)]).w 0 * (rdaRun 1 1 1 [((fun _ => 1), 1)]).g 0 ≤ 0 :=
  ⟨one_pos, (rda_weight_gradient_opposition 1 1 1 one_pos one_pos [((fun _ => 1), 1)] 0).1⟩
